import Mathlib

/-!
# Verification of `packages/builders/src/utils/providers/git.ts` (dokploy)

This file gives a shallow embedding of the git-provisioning module:

* `sanitizeRepoPathSSH` — the SSH reference parser.  The TypeScript builds one
  JavaScript regular expression `SSH_PATH_RE` out of eight pieces and matches
  the input against it.  We compile that regex, piece by piece, into an
  explicit backtracking matcher in continuation-passing style.  Greedy
  quantifiers try the longest match first and give characters back on
  continuation failure, exactly as the JS engine does; optional groups try to
  match first and fall back to skipping; the one negative lookahead
  `(?!git\/?\s*$)` is compiled to the total check `gitTailEnd`.
* `isHttpOrHttps`, `addHostToKnownHosts`, `addHostToKnownHostsCommand`.
* the four clone operations `cloneGitRepository`, `getCustomGitCloneCommand`,
  `cloneGitRawRepository`, `cloneRawGitRepositoryRemote`.  Effectful
  collaborators (filesystem reset, ssh-keyscan, `updateSSHKeyById`, process
  spawn, remote execution) are modelled by an `Oracle` that decides the
  outcome of each collaborator call, and every operation returns the list of
  collaborator events it performed, in order, together with its
  `Except`-result (a thrown error or a normal return).
-/

namespace Dokploy

/-! ## JavaScript-flavoured helpers -/

/-- JS truthiness test for a `string | null | undefined` value:
`!s` is `true` for `null`, `undefined` and the empty string. -/
def isFalsyStr : Option String → Bool
  | none => true
  | some s => s = ""

/-- JS template-literal interpolation of a `string | null` value
(`${null}` renders as `"null"`). -/
def jsInterp : Option String → String
  | none => "null"
  | some s => s

/-- The set matched by the JS character class `\s`
(whitespace, non-breaking spaces, BOM, line/paragraph separators). -/
def jsSpace (c : Char) : Bool :=
  let v := c.toNat
  v = 0x20 || v = 0x9 || v = 0xA || v = 0xB || v = 0xC || v = 0xD ||
  v = 0xA0 || v = 0x1680 || (0x2000 ≤ v && v ≤ 0x200A) ||
  v = 0x2028 || v = 0x2029 || v = 0x202F || v = 0x205F || v = 0x3000 || v = 0xFEFF

/-- `[a-z]` under the regex's `i` flag: ASCII letters of either case. -/
def alphaCI (c : Char) : Bool :=
  let v := c.toNat
  (0x61 ≤ v && v ≤ 0x7A) || (0x41 ≤ v && v ≤ 0x5A)

/-- `[0-9]`. -/
def isDigitCh (c : Char) : Bool :=
  let v := c.toNat
  0x30 ≤ v && v ≤ 0x39

/-- `[a-z_]` under the `i` flag: first character of the `user` group. -/
def userFirst (c : Char) : Bool := alphaCI c || c = '_'

/-- `[a-z0-9_-]` under the `i` flag: remaining characters of the `user` group. -/
def userRest (c : Char) : Bool := alphaCI c || isDigitCh c || c = '_' || c = '-'

/-- `[^\s\/\?#:]`: characters of the `domain` and `owner` groups. -/
def domainChar (c : Char) : Bool :=
  !(jsSpace c) && c ≠ '/' && c ≠ '?' && c ≠ '#' && c ≠ ':'

/-- `[^\s\?#:.]`: the plain alternative of a `repo`-group character
(note `/` is allowed here). -/
def repoPlainChar (c : Char) : Bool :=
  !(jsSpace c) && c ≠ '?' && c ≠ '#' && c ≠ ':' && c ≠ '.'

/-- `.` (any character except line terminators), used in `(?:.git)?`. -/
def dotAny (c : Char) : Bool :=
  c ≠ '\n' && c ≠ '\r' && c.toNat ≠ 0x2028 && c.toNat ≠ 0x2029

/-- Case-insensitive comparison against a lowercase ASCII letter,
as the `i` flag canonicalizes literal characters. -/
def ciIs (c lo : Char) : Bool := c = lo || c.toLower = lo

/-- The negative lookahead body `git\/?\s*$`: does the remaining input consist
of `git` (case-insensitively), an optional `/`, and trailing whitespace? -/
def gitTailEnd : List Char → Bool
  | g :: i :: t :: rest =>
    ciIs g 'g' && ciIs i 'i' && ciIs t 't' &&
      (rest.all jsSpace ||
        (match rest with
         | '/' :: r => r.all jsSpace
         | _ => false))
  | _ => false

/-! ## Greedy backtracking combinators (CPS)

Each combinator receives the remaining input and a continuation; a greedy
quantifier first extends the match as far as possible and, whenever the
continuation fails, gives one character back, exactly mirroring the JS
backtracking search order.  The continuation receives the consumed characters
(in order) and the rest of the input. -/

/-- `p*`, greedy with backtracking, on a one-character class `p`. -/
def manyG {α : Type} (p : Char → Bool) :
    List Char → (List Char → List Char → Option α) → Option α
  | [], k => k [] []
  | c :: rest, k =>
    if p c then
      match manyG p rest (fun m r => k (c :: m) r) with
      | some a => some a
      | none => k [] (c :: rest)
    else k [] (c :: rest)

/-- `p+`, greedy with backtracking. -/
def plusG {α : Type} (p : Char → Bool)
    (s : List Char) (k : List Char → List Char → Option α) : Option α :=
  match s with
  | [] => none
  | c :: rest => if p c then manyG p rest (fun m r => k (c :: m) r) else none

/-- `p{0,n}`, greedy with backtracking. -/
def upToG {α : Type} (p : Char → Bool) :
    Nat → List Char → (List Char → List Char → Option α) → Option α
  | 0, s, k => k [] s
  | _ + 1, [], k => k [] []
  | n + 1, c :: rest, k =>
    if p c then
      match upToG p n rest (fun m r => k (c :: m) r) with
      | some a => some a
      | none => k [] (c :: rest)
    else k [] (c :: rest)

/-- One `repo`-group character at the current position:
`(?:[^\s\?#:.]|\.(?!git\/?\s*$))`. -/
def repoItem (c : Char) (rest : List Char) : Bool :=
  repoPlainChar c || (c = '.' && !(gitTailEnd rest))

/-- `(?:[^\s\?#:.]|\.(?!git\/?\s*$))*`, greedy with backtracking. -/
def repoMany {α : Type} :
    List Char → (List Char → List Char → Option α) → Option α
  | [], k => k [] []
  | c :: rest, k =>
    if repoItem c rest then
      match repoMany rest (fun m r => k (c :: m) r) with
      | some a => some a
      | none => k [] (c :: rest)
    else k [] (c :: rest)

/-- `(?:[^\s\?#:.]|\.(?!git\/?\s*$))+`, greedy with backtracking. -/
def repoPlus {α : Type}
    (s : List Char) (k : List Char → List Char → Option α) : Option α :=
  match s with
  | [] => none
  | c :: rest =>
    if repoItem c rest then repoMany rest (fun m r => k (c :: m) r) else none

/-! ## The `SSH_PATH_RE` matcher -/

/-- The named capture groups of `SSH_PATH_RE` (`found.groups` in the source);
`none` is an unmatched optional group (`undefined`). -/
structure SSHGroups where
  proto : Option String
  user : Option String
  domain : String
  port : Option String
  owner : Option String
  repo : String
deriving Repr, DecidableEq

/-- `(?:(?<proto>[a-z]+):\/\/)?`, greedy optional group. -/
def protoOpt {α : Type} (s : List Char)
    (k : Option String → List Char → Option α) : Option α :=
  match plusG alphaCI s (fun m r =>
    match r with
    | ':' :: '/' :: '/' :: r2 => k (some (String.mk m)) r2
    | _ => none) with
  | some a => some a
  | none => k none s

/-- `(?:(?<user>[a-z_][a-z0-9_-]+)@)?`, greedy optional group. -/
def userOpt {α : Type} (s : List Char)
    (k : Option String → List Char → Option α) : Option α :=
  match s with
  | [] => k none []
  | c :: rest =>
    if userFirst c then
      match plusG userRest rest (fun m r =>
        match r with
        | '@' :: r2 => k (some (String.mk (c :: m))) r2
        | _ => none) with
      | some a => some a
      | none => k none (c :: rest)
    else k none (c :: rest)

/-- `(?::(?<port>[0-9]{1,5}))?`, greedy optional group. -/
def portOpt {α : Type} (s : List Char)
    (k : Option String → List Char → Option α) : Option α :=
  match s with
  | ':' :: c :: rest =>
    if isDigitCh c then
      match upToG isDigitCh 4 rest (fun m r => k (some (String.mk (c :: m))) r) with
      | some a => some a
      | none => k none (':' :: c :: rest)
    else k none (':' :: c :: rest)
  | s => k none s

/-- `(?:[\/:](?<owner>[^\s\/\?#:]+))?`, greedy optional group. -/
def ownerOpt {α : Type} (s : List Char)
    (k : Option String → List Char → Option α) : Option α :=
  match s with
  | [] => k none []
  | c :: rest =>
    if c = '/' || c = ':' then
      match plusG domainChar rest (fun m r => k (some (String.mk m)) r) with
      | some a => some a
      | none => k none (c :: rest)
    else k none (c :: rest)

/-- `(?:[\/:](?<repo>(?:[^\s\?#:.]|\.(?!git\/?\s*$))+))`, mandatory group. -/
def repoGrp {α : Type} (s : List Char)
    (k : String → List Char → Option α) : Option α :=
  match s with
  | [] => none
  | c :: rest =>
    if c = '/' || c = ':' then repoPlus rest (fun m r => k (String.mk m) r)
    else none

/-- `\/?\s*$`: optional slash, trailing whitespace, end of input. -/
def slashWsEnd (s : List Char) : Bool :=
  match s with
  | '/' :: rest => rest.all jsSpace
  | _ => s.all jsSpace

/-- `(?:.git)?\/?\s*$` (note the unescaped `.`: *any* non-terminator
character followed by `git`, case-insensitively). -/
def tailMatch (s : List Char) : Bool :=
  (match s with
   | c :: g :: i :: t :: rest =>
     dotAny c && ciIs g 'g' && ciIs i 'i' && ciIs t 't' && slashWsEnd rest
   | _ => false)
  || slashWsEnd s

/-- The whole of `SSH_PATH_RE`, anchored at both ends:
`^\s*` proto? user? domain port? owner? repo `(?:.git)?\/?\s*$`. -/
def matchSSHPath (s : List Char) : Option SSHGroups :=
  manyG jsSpace s fun _ s1 =>
  protoOpt s1 fun proto s2 =>
  userOpt s2 fun user s3 =>
  plusG domainChar s3 fun dom s4 =>
  portOpt s4 fun port s5 =>
  ownerOpt s5 fun owner s6 =>
  repoGrp s6 fun repo s7 =>
  if tailMatch s7 then
    some { proto := proto, user := user, domain := String.mk dom,
           port := port, owner := owner, repo := repo }
  else none

/-- `Number(s)` for a non-empty all-digit string: the left fold over its
characters. -/
def digitsToNat (s : String) : Nat :=
  s.data.foldl (fun a c => a * 10 + (c.toNat - 0x30)) 0

/-- The record returned by `sanitizeRepoPathSSH` (defaults substituted). -/
structure SSHLocation where
  user : String
  domain : String
  port : Nat
  owner : String
  repo : String
deriving Repr, DecidableEq

/-- The `repoPath` getter:
``ssh://${user}@${domain}:${port}/${owner}${owner && "/"}${repo}.git``. -/
def SSHLocation.repoPath (l : SSHLocation) : String :=
  "ssh://" ++ l.user ++ "@" ++ l.domain ++ ":" ++ toString l.port ++ "/" ++
    l.owner ++ (if l.owner = "" then "" else "/") ++ l.repo ++ ".git"

/-- `sanitizeRepoPathSSH`: match against `SSH_PATH_RE`; on failure throw
(`none`), on success substitute the defaults
`user = "git"`, `port = 22`, `owner = ""`. -/
def sanitizeRepoPathSSH (input : String) : Option SSHLocation :=
  match matchSSHPath input.data with
  | none => none
  | some g =>
    some { user := g.user.getD "git"
           domain := g.domain
           port := digitsToNat (g.port.getD "22")
           owner := g.owner.getD ""
           repo := g.repo }

/-- `isHttpOrHttps`: test of the (case-sensitive) regex `^https?:\/\/`. -/
def isHttpOrHttps (url : String) : Bool :=
  "http://".data.isPrefixOf url.data || "https://".data.isPrefixOf url.data

/-! ## Collaborator events and outcomes

Each clone operation is modelled as a function from its inputs and an
`Oracle` (the outcomes of its effectful collaborators) to the ordered list
of collaborator events it performs plus its `Except`-result. -/

/-- One observable collaborator call. -/
inductive GitEvent where
  /-- `createWriteStream(logPath, \x7bflags: "a"\x7d)` -/
  | openLogSink (path : String)
  /-- entry into `addHostToKnownHosts(repositoryURL)` -/
  | knownHostsCall (url : String)
  /-- entry into `addHostToKnownHostsCommand(repositoryURL)` (a pure call
  in the source; recorded so that registrar invocations are observable) -/
  | knownHostsCmdBuild (url : String)
  /-- `execAsync("ssh-keyscan -p port domain >> knownHostsPath")` -/
  | knownHostsExec (domain : String) (port : Nat)
  /-- `recreateDirectory(outputPath)` -/
  | recreateDir (path : String)
  /-- `writeStream.write(line)` -/
  | logWrite (line : String)
  /-- `updateSSHKeyById(\x7bsshKeyId, lastUsedAt\x7d)` -/
  | sshKeyUpdate (keyId : String)
  /-- `spawnAsync("git", args, onData, \x7benv\x7d)`; the second component is
  the `GIT_SSH_COMMAND` value added to the inherited environment, if any -/
  | spawnGit (args : List String) (gitSSHCommand : Option String)
  /-- `execAsyncRemote(serverId, script)` -/
  | execRemote (serverId : Option String) (script : String)
  /-- `writeStream.end()` (the `finally` block) -/
  | closeLogSink
deriving Repr, DecidableEq

/-- A thrown error: a `TRPCError`, the `Error` thrown by
`sanitizeRepoPathSSH`, or a rejection from a collaborator call. -/
inductive GitError where
  | trpc (code msg : String)
  | malformedSSH (input : String)
  | collab (msg : String)
deriving Repr, DecidableEq

/-- Rendering of `${error}` inside a JS template literal. -/
def errStr : GitError → String
  | .trpc _ msg => "TRPCError: " ++ msg
  | .malformedSSH input => "Error: Malformatted SSH path: " ++ input
  | .collab msg => "Error: " ++ msg

/-- Outcomes of the effectful collaborators for one run: `none` means the
call resolves, `some msg` means it rejects with message `msg`. -/
structure Oracle where
  scanErr : Option String
  recreateErr : Option String
  sshKeyErr : Option String
  cloneErr : Option String
  remoteErr : Option String
deriving Repr, DecidableEq

/-- The directory roots returned by the external `paths()` helper. -/
structure Paths where
  sshPath : String
  composePath : String
  applicationsPath : String
deriving Repr, DecidableEq

/-- The entity consumed by `cloneGitRepository` / `cloneGitRawRepository`. -/
structure CloneEntity where
  appName : String
  customGitUrl : Option String
  customGitBranch : Option String
  customGitSSHKeyId : Option String
deriving Repr, DecidableEq

/-- The entity consumed by `getCustomGitCloneCommand` and the `Compose`
record consumed by `cloneRawGitRepositoryRemote`. -/
structure RemoteEntity where
  appName : String
  customGitUrl : Option String
  customGitBranch : Option String
  customGitSSHKeyId : Option String
  serverId : Option String
deriving Repr, DecidableEq

/-- Equality of `Except` outcomes is decidable componentwise. -/
instance {ε σ : Type} [DecidableEq ε] [DecidableEq σ] :
    DecidableEq (Except ε σ)
  | .ok a, .ok b =>
    if h : a = b then isTrue (by rw [h])
    else isFalse (by intro hh; cases hh; exact h rfl)
  | .ok _, .error _ => isFalse (by intro h; cases h)
  | .error _, .ok _ => isFalse (by intro h; cases h)
  | .error a, .error b =>
    if h : a = b then isTrue (by rw [h])
    else isFalse (by intro hh; cases hh; exact h rfl)

/-- Sequencing of awaited steps: accumulate events and stop at the first
thrown error. -/
def seqE (a : List GitEvent × Option GitError)
    (f : Unit → List GitEvent × Option GitError) :
    List GitEvent × Option GitError :=
  match a with
  | (evs, some e) => (evs, some e)
  | (evs, none) => match f () with
    | (evs2, r) => (evs ++ evs2, r)

/-- `addHostToKnownHosts`: parse the reference (throwing on a malformed
path), then run `ssh-keyscan` against the parsed domain and port,
re-throwing a scan failure. -/
def addHostToKnownHosts (o : Oracle) (repositoryURL : String) :
    List GitEvent × Option GitError :=
  match sanitizeRepoPathSSH repositoryURL with
  | none => ([.knownHostsCall repositoryURL], some (.malformedSSH repositoryURL))
  | some loc =>
    ([.knownHostsCall repositoryURL, .knownHostsExec loc.domain loc.port],
      o.scanErr.map .collab)

/-- `addHostToKnownHostsCommand`: the same scan as command text for remote
execution (`none` models the throw on a malformed path). -/
def addHostToKnownHostsCommand (ps : Paths) (repositoryURL : String) :
    Option String :=
  (sanitizeRepoPathSSH repositoryURL).map fun loc =>
    "ssh-keyscan -p " ++ toString loc.port ++ " " ++ loc.domain ++ " >> " ++
      (ps.sshPath ++ "/known_hosts") ++ ";"

/-! ## `cloneGitRepository` (local executor) -/

/-- The argument vector of the local `spawnAsync("git", ...)` call. -/
def gitCloneArgs (branch url outputPath : String) : List String :=
  ["clone", "--branch", branch, "--depth", "1", "--recurse-submodules",
   url, outputPath, "--progress"]

/-- ``\nCloning Repo Custom ${url} to ${outputPath}: ✅\n``. -/
def cloningRepoLine (url outputPath : String) : String :=
  "\nCloning Repo Custom " ++ url ++ " to " ++ outputPath ++ ": ✅\n"

/-- ``\nCloned Custom Git ${url}: ✅\n``. -/
def clonedLine (url : String) : String :=
  "\nCloned Custom Git " ++ url ++ ": ✅\n"

/-- ``\nERROR Cloning Custom Git: ${error}: ❌\n``. -/
def cloneErrorLine (e : GitError) : String :=
  "\nERROR Cloning Custom Git: " ++ errStr e ++ ": ❌\n"

/-- The `try`-block of `cloneGitRepository`: register the host key for
non-HTTP(S) references, reset the destination, announce the clone, touch
the SSH key record, spawn the clone. -/
def cloneGitRepositoryBody (ps : Paths) (o : Oracle) (entity : CloneEntity)
    (isCompose : Bool) : List GitEvent × Option GitError :=
  let customGitUrl := entity.customGitUrl.getD ""
  let customGitBranch := entity.customGitBranch.getD ""
  let keyPath := ps.sshPath ++ "/" ++ jsInterp entity.customGitSSHKeyId ++ "_rsa"
  let basePath := if isCompose then ps.composePath else ps.applicationsPath
  let outputPath := basePath ++ "/" ++ entity.appName ++ "/code"
  let knownHostsPath := ps.sshPath ++ "/known_hosts"
  seqE (if isHttpOrHttps customGitUrl then ([], none)
        else addHostToKnownHosts o customGitUrl) fun _ =>
  seqE ([.recreateDir outputPath], o.recreateErr.map .collab) fun _ =>
  seqE ([.logWrite (cloningRepoLine customGitUrl outputPath)], none) fun _ =>
  seqE (if isFalsyStr entity.customGitSSHKeyId then ([], none)
        else ([.sshKeyUpdate (entity.customGitSSHKeyId.getD "")],
              o.sshKeyErr.map .collab)) fun _ =>
  ([.spawnGit (gitCloneArgs customGitBranch customGitUrl outputPath)
      (if isFalsyStr entity.customGitSSHKeyId then none
       else some ("ssh -i " ++ keyPath ++ " -o UserKnownHostsFile=" ++
         knownHostsPath))],
    o.cloneErr.map .collab)

/-- `cloneGitRepository`: validate, open the log sink, run the `try`-block
(`cloneGitRepositoryBody`); on any thrown error append the error line and
re-throw; always end the stream. -/
def cloneGitRepository (ps : Paths) (o : Oracle) (entity : CloneEntity)
    (logPath : String) (isCompose : Bool := false) :
    List GitEvent × Except GitError Unit :=
  if isFalsyStr entity.customGitUrl || isFalsyStr entity.customGitBranch then
    ([], .error (.trpc "BAD_REQUEST" "Error: Repository not found"))
  else
    match cloneGitRepositoryBody ps o entity isCompose with
    | (evs, some e) =>
      (.openLogSink logPath :: evs ++
        [.logWrite (cloneErrorLine e), .closeLogSink], .error e)
    | (evs, none) =>
      (.openLogSink logPath :: evs ++
        [.logWrite (clonedLine (entity.customGitUrl.getD "")), .closeLogSink],
        .ok ())

/-! ## `getCustomGitCloneCommand` (remote script builder) -/

/-- The command sent through `execAsyncRemote` when `url`/`branch` is
missing (the template literal's newlines and tabs kept verbatim). -/
def customCloneErrCmd (logPath : String) : String :=
  "\n\t\t\techo  \"Error: ❌ Repository not found\" >> " ++ logPath ++
    ";\n\t\t\texit 1;\n\t\t"

/-- The guarded clone block pushed by `getCustomGitCloneCommand`. -/
def remoteCloneBlock (branch url outputPath logPath : String) : String :=
  "if ! git clone --branch " ++ branch ++ " --depth 1 --progress " ++ url ++
    " " ++ outputPath ++ " >> " ++ logPath ++ " 2>&1; then\n\t\t\t\techo \"❌ [ERROR] Fail to clone the repository " ++
    url ++ "\" >> " ++ logPath ++ ";\n\t\t\t\texit 1;\n\t\t\tfi\n\t\t\t"

/-- The argument vector of the `git` invocation textually embedded in
`remoteCloneBlock` (the words between `git` and the first `>>`). -/
def remoteGitCloneArgv (branch url outputPath : String) : List String :=
  ["clone", "--branch", branch, "--depth", "1", "--progress", url, outputPath]

/-- `getCustomGitCloneCommand`: on a missing `url`/`branch`, ship an
error-and-exit command to the remote host, then throw; otherwise touch the
SSH key record and return the composite script (host-key scan for
non-HTTP(S), `rm -rf`/`mkdir -p`, announce line, optional
`GIT_SSH_COMMAND`, guarded clone, success line) joined by newlines. -/
def getCustomGitCloneCommand (ps : Paths) (o : Oracle) (entity : RemoteEntity)
    (logPath : String) (isCompose : Bool := false) :
    List GitEvent × Except GitError String :=
  if isFalsyStr entity.customGitUrl || isFalsyStr entity.customGitBranch then
    match o.remoteErr with
    | some e => ([.execRemote entity.serverId (customCloneErrCmd logPath)],
                 .error (.collab e))
    | none => ([.execRemote entity.serverId (customCloneErrCmd logPath)],
               .error (.trpc "BAD_REQUEST" "Error: Repository not found"))
  else
    let customGitUrl := entity.customGitUrl.getD ""
    let customGitBranch := entity.customGitBranch.getD ""
    let keyPath := ps.sshPath ++ "/" ++ jsInterp entity.customGitSSHKeyId ++ "_rsa"
    let basePath := if isCompose then ps.composePath else ps.applicationsPath
    let outputPath := basePath ++ "/" ++ entity.appName ++ "/code"
    let knownHostsPath := ps.sshPath ++ "/known_hosts"
    let keyEvents : List GitEvent :=
      if isFalsyStr entity.customGitSSHKeyId then []
      else [.sshKeyUpdate (entity.customGitSSHKeyId.getD "")]
    match (if isFalsyStr entity.customGitSSHKeyId then none else o.sshKeyErr) with
    | some e => (keyEvents, .error (.collab e))
    | none =>
      let sharedTail : List String :=
        ["rm -rf " ++ outputPath ++ ";",
         "mkdir -p " ++ outputPath ++ ";",
         "echo \"Cloning Custom Git " ++ customGitUrl ++ "\" to " ++
           outputPath ++ ": ✅ >> " ++ logPath ++ ";"]
        ++ (if isFalsyStr entity.customGitSSHKeyId then []
            else ["GIT_SSH_COMMAND=\"ssh -i " ++ keyPath ++
              " -o UserKnownHostsFile=" ++ knownHostsPath ++ "\""])
        ++ [remoteCloneBlock customGitBranch customGitUrl outputPath logPath,
            "echo \"Cloned Custom Git " ++ customGitUrl ++ ": ✅\" >> " ++
              logPath ++ ";"]
      if isHttpOrHttps customGitUrl then
        (keyEvents, .ok (String.intercalate "\n" sharedTail))
      else
        match addHostToKnownHostsCommand ps customGitUrl with
        | none => (keyEvents ++ [.knownHostsCmdBuild customGitUrl],
                   .error (.malformedSSH customGitUrl))
        | some kh => (keyEvents ++ [.knownHostsCmdBuild customGitUrl],
                      .ok (String.intercalate "\n" (kh :: sharedTail)))

/-! ## `cloneGitRawRepository` (local, compose tree, no log sink) -/

/-- The argument vector of the raw local clone
(no `--recurse-submodules`). -/
def gitCloneRawArgs (branch url outputPath : String) : List String :=
  ["clone", "--branch", branch, "--depth", "1", url, outputPath, "--progress"]

/-- `cloneGitRawRepository`: validate, register the host key
(unconditionally), reset the destination, touch the SSH key record, spawn
the clone; errors are re-thrown unchanged (no log sink at all). -/
def cloneGitRawRepository (ps : Paths) (o : Oracle) (entity : CloneEntity) :
    List GitEvent × Except GitError Unit :=
  if isFalsyStr entity.customGitUrl || isFalsyStr entity.customGitBranch then
    ([], .error (.trpc "BAD_REQUEST" "Error: Repository not found"))
  else
    let customGitUrl := entity.customGitUrl.getD ""
    let customGitBranch := entity.customGitBranch.getD ""
    let keyPath := ps.sshPath ++ "/" ++ jsInterp entity.customGitSSHKeyId ++ "_rsa"
    let outputPath := ps.composePath ++ "/" ++ entity.appName ++ "/code"
    let knownHostsPath := ps.sshPath ++ "/known_hosts"
    let body :=
      seqE (addHostToKnownHosts o customGitUrl) fun _ =>
      seqE ([.recreateDir outputPath], o.recreateErr.map .collab) fun _ =>
      seqE (if isFalsyStr entity.customGitSSHKeyId then ([], none)
            else ([.sshKeyUpdate (entity.customGitSSHKeyId.getD "")],
                  o.sshKeyErr.map .collab)) fun _ =>
      ([.spawnGit (gitCloneRawArgs customGitBranch customGitUrl outputPath)
          (if isFalsyStr entity.customGitSSHKeyId then none
           else some ("ssh -i " ++ keyPath ++ " -o UserKnownHostsFile=" ++
             knownHostsPath))],
        o.cloneErr.map .collab)
    match body with
    | (evs, some e) => (evs, .error e)
    | (evs, none) => (evs, .ok ())

/-! ## `cloneRawGitRepositoryRemote` (remote, compose tree) -/

/-- The guarded clone block of `cloneRawGitRepositoryRemote` (no log file;
`branch` is interpolated whether or not it is present). -/
def rawRemoteCloneBlock (branch url outputPath : String) : String :=
  "if ! git clone --branch " ++ branch ++ " --depth 1 --progress " ++ url ++
    " " ++ outputPath ++
    " ; then\n\t\t\t\techo \"[ERROR] Fail to clone the repository \";\n\t\t\t\texit 1;\n\t\t\tfi\n\t\t\t"

/-- `cloneRawGitRepositoryRemote`: require `serverId` and `customGitUrl`
(note: `customGitBranch` is *not* validated), touch the SSH key record,
build the script (host-key scan for non-HTTP(S), `rm -rf`/`mkdir -p`,
optional `GIT_SSH_COMMAND`, guarded clone) and run it remotely. -/
def cloneRawGitRepositoryRemote (ps : Paths) (o : Oracle)
    (compose : RemoteEntity) : List GitEvent × Except GitError Unit :=
  if isFalsyStr compose.serverId then
    ([], .error (.trpc "NOT_FOUND" "Server not found"))
  else if isFalsyStr compose.customGitUrl then
    ([], .error (.trpc "NOT_FOUND" "Git Provider not found"))
  else
    let customGitUrl := compose.customGitUrl.getD ""
    let keyPath := ps.sshPath ++ "/" ++ jsInterp compose.customGitSSHKeyId ++ "_rsa"
    let outputPath := ps.composePath ++ "/" ++ compose.appName ++ "/code"
    let knownHostsPath := ps.sshPath ++ "/known_hosts"
    let keyEvents : List GitEvent :=
      if isFalsyStr compose.customGitSSHKeyId then []
      else [.sshKeyUpdate (compose.customGitSSHKeyId.getD "")]
    match (if isFalsyStr compose.customGitSSHKeyId then none else o.sshKeyErr) with
    | some e => (keyEvents, .error (.collab e))
    | none =>
      let sharedTail : List String :=
        ["rm -rf " ++ outputPath ++ ";",
         "mkdir -p " ++ outputPath ++ ";"]
        ++ (if isFalsyStr compose.customGitSSHKeyId then []
            else ["GIT_SSH_COMMAND=\"ssh -i " ++ keyPath ++
              " -o UserKnownHostsFile=" ++ knownHostsPath ++ "\""])
        ++ [rawRemoteCloneBlock (jsInterp compose.customGitBranch)
              customGitUrl outputPath]
      let built : List GitEvent × Option String :=
        if isHttpOrHttps customGitUrl then
          ([], some (String.intercalate "\n" sharedTail))
        else
          ([.knownHostsCmdBuild customGitUrl],
            (addHostToKnownHostsCommand ps customGitUrl).map
              fun kh => String.intercalate "\n" (kh :: sharedTail))
      match built with
      | (evs, none) => (keyEvents ++ evs, .error (.malformedSSH customGitUrl))
      | (evs, some script) =>
        match o.remoteErr with
        | some e => (keyEvents ++ evs ++ [.execRemote compose.serverId script],
                     .error (.collab e))
        | none => (keyEvents ++ evs ++ [.execRemote compose.serverId script],
                   .ok ())

/-- The number of `addHostToKnownHosts`/`addHostToKnownHostsCommand`
invocations recorded in a trace. -/
def scanCalls (tr : List GitEvent) : Nat :=
  (tr.filter fun e => match e with
    | .knownHostsCall _ => true
    | .knownHostsCmdBuild _ => true
    | _ => false).length

/-- Does an event spawn the git child process? -/
def isSpawn : GitEvent → Bool
  | .spawnGit _ _ => true
  | _ => false

/-! ## Concrete instances for example runs -/

/-- Example directory roots. -/
def ps0 : Paths :=
  { sshPath := "/etc/dokploy/ssh"
    composePath := "/etc/dokploy/compose"
    applicationsPath := "/etc/dokploy/applications" }

/-- The oracle in which every collaborator call succeeds. -/
def okOracle : Oracle :=
  { scanErr := none, recreateErr := none, sshKeyErr := none,
    cloneErr := none, remoteErr := none }

/-- An SSH reference with a credential. -/
def sshEntity : CloneEntity :=
  { appName := "app", customGitUrl := some "git@github.com:owner/repo.git",
    customGitBranch := some "main", customGitSSHKeyId := some "key1" }

/-- An HTTPS reference without a credential. -/
def httpsEntity : CloneEntity :=
  { appName := "app",
    customGitUrl := some "https://github.com/owner/repo.git",
    customGitBranch := some "main", customGitSSHKeyId := none }

/-- The SSH reference of `sshEntity` addressed to a remote server. -/
def sshRemoteEntity : RemoteEntity :=
  { appName := "app", customGitUrl := some "git@github.com:owner/repo.git",
    customGitBranch := some "main", customGitSSHKeyId := some "key1",
    serverId := some "srv1" }

/-- A remote compose entity with `url` set but `branch` absent. -/
def noBranchRemoteEntity : RemoteEntity :=
  { appName := "app", customGitUrl := some "git@github.com:owner/repo.git",
    customGitBranch := none, customGitSSHKeyId := none,
    serverId := some "srv1" }

/-- Executable substring check on character lists. -/
def hasInfix (pat : List Char) : List Char → Bool
  | [] => pat.isEmpty
  | c :: rest => pat.isPrefixOf (c :: rest) || hasInfix pat rest

/-! ## Parser proof infrastructure

Predicates describing the strings the capture groups of `SSH_PATH_RE` can
produce, used to characterize successful matches and to re-run the matcher
on the reconstructed canonical URL. -/

/-- A character the `repo` group can contain (either alternative). -/
def repoChar (c : Char) : Bool := repoPlainChar c || c = '.'

/-- The language of the `user` group: `[a-z_][a-z0-9_-]+`. -/
def userShapeP (u : List Char) : Prop :=
  ∃ c m, u = c :: m ∧ userFirst c = true ∧ m ≠ [] ∧
    ∀ x ∈ m, userRest x = true

/-- Validity of a run of `repo`-group items in front of the context `r`
(each `.` must fail the `git`-lookahead at its own position). -/
def itemsOK : List Char → List Char → Prop
  | [], _ => True
  | c :: m, r => repoItem c (m ++ r) = true ∧ itemsOK m r

/-- Positions the slash can occupy inside a `repo` capture produced with
an unmatched `owner` group: leading, absent, or trailing-only. -/
def junctionP (m : List Char) : Prop :=
  m.head? = some '/' ∨ '/' ∉ m ∨ ∃ P, m = P ++ ['/'] ∧ '/' ∉ P

/-- Decimal digit characters of `n`, most significant first. -/
def decChars (n : Nat) : List Char :=
  if h : n < 10 then [Nat.digitChar n]
  else decChars (n / 10) ++ [Nat.digitChar (n % 10)]
decreasing_by exact Nat.div_lt_self (by omega) (by omega)

/-! # Theorems -/

/-- `hasInfix` decides `List.IsInfix`. -/
theorem hasInfix_iff_isInfix (pat s : List Char) :
    hasInfix pat s = true ↔ List.IsInfix pat s := by
  induction s with
  | nil =>
    simp [hasInfix, List.isEmpty_iff, List.infix_nil]
  | cons c rest ih =>
    simp only [hasInfix, Bool.or_eq_true, List.isPrefixOf_iff_prefix, ih,
      List.infix_cons_iff]

/-- Ends of a four-element tail can be exchanged under permutation. -/
theorem perm_swap_ends {α : Type} (x y : α) (l : List α) :
    List.Perm (x :: (l ++ [y])) (y :: (l ++ [x])) := by
  induction l with
  | nil => exact List.Perm.swap y x []
  | cons a l ih =>
    have h1 : List.Perm (x :: a :: (l ++ [y])) (a :: x :: (l ++ [y])) :=
      List.Perm.swap a x _
    have h2 : List.Perm (a :: x :: (l ++ [y])) (a :: y :: (l ++ [x])) :=
      List.Perm.cons a ih
    have h3 : List.Perm (a :: y :: (l ++ [x])) (y :: a :: (l ++ [x])) :=
      List.Perm.swap y a _
    exact (h1.trans h2).trans h3

/-- C9: `sanitizeRepoPathSSH` parses `git@github.com:owner/repo.git` to
`{user "git", domain "github.com", port 22, owner "owner", repo "repo"}`
and `ssh://deploy@git.example.com:2222/team/app` to
`{user "deploy", domain "git.example.com", port 2222, owner "team",
repo "app"}`. -/
theorem sanitizeRepoPathSSH_examples :
    sanitizeRepoPathSSH "git@github.com:owner/repo.git" =
      some { user := "git", domain := "github.com", port := 22,
             owner := "owner", repo := "repo" } ∧
    sanitizeRepoPathSSH "ssh://deploy@git.example.com:2222/team/app" =
      some { user := "deploy", domain := "git.example.com", port := 2222,
             owner := "team", repo := "app" } := by
  exact ⟨by decide, by decide⟩

/-- C7: when `url` or `branch` is missing, `getCustomGitCloneCommand` sends
the remote-execution collaborator a command whose text appends the error
line to the remote log file and exits with status 1, and (when that send
itself succeeds) throws the `BAD_REQUEST` validation error locally. -/
theorem getCustomGitCloneCommand_missing_reference_dual_report
    (ps : Paths) (o : Oracle) (entity : RemoteEntity) (logPath : String)
    (isCompose : Bool)
    (h : (isFalsyStr entity.customGitUrl ||
          isFalsyStr entity.customGitBranch) = true) :
    (getCustomGitCloneCommand ps o entity logPath isCompose).1 =
      [.execRemote entity.serverId (customCloneErrCmd logPath)] ∧
    List.IsInfix
      ("echo  \"Error: ❌ Repository not found\" >> " ++ logPath).data
      (customCloneErrCmd logPath).data ∧
    List.IsInfix "exit 1;".data (customCloneErrCmd logPath).data ∧
    (o.remoteErr = none →
      (getCustomGitCloneCommand ps o entity logPath isCompose).2 =
        .error (.trpc "BAD_REQUEST" "Error: Repository not found")) := by
  refine ⟨?_, ?_, ?_, ?_⟩
  · cases hr : o.remoteErr <;> simp [getCustomGitCloneCommand, h, hr]
  · exact ⟨"\n\t\t\t".data, (";\n\t\t\texit 1;\n\t\t").data,
      by simp [customCloneErrCmd]⟩
  · exact ⟨("\n\t\t\techo  \"Error: ❌ Repository not found\" >> " ++ logPath
      ++ ";\n\t\t\t").data, "\n\t\t".data, by simp [customCloneErrCmd]⟩
  · intro hr
    simp [getCustomGitCloneCommand, h, hr]

/-- Witness for C7: the concrete missing-branch entity. -/
theorem getCustomGitCloneCommand_missing_reference_dual_report_witness :
    (getCustomGitCloneCommand ps0 okOracle noBranchRemoteEntity "/log" false).1 =
      [.execRemote noBranchRemoteEntity.serverId (customCloneErrCmd "/log")] ∧
    (getCustomGitCloneCommand ps0 okOracle noBranchRemoteEntity "/log" false).2 =
      .error (.trpc "BAD_REQUEST" "Error: Repository not found") := by
  have h := getCustomGitCloneCommand_missing_reference_dual_report
    ps0 okOracle noBranchRemoteEntity "/log" false (by decide)
  exact ⟨h.1, h.2.2.2 rfl⟩

/-- C2 (counterexample): `cloneRawGitRepositoryRemote` does *not* fail when
the branch is absent — with `url` set and `branch` undefined it completes
normally (shipping a script that interpolates the missing branch). -/
theorem cloneRawGitRepositoryRemote_missing_branch_cex :
    isFalsyStr noBranchRemoteEntity.customGitBranch = true ∧
    (cloneRawGitRepositoryRemote ps0 okOracle noBranchRemoteEntity).2 =
      .ok () := by
  exact ⟨by decide, by decide⟩

/-- C2 (amended): `cloneGitRepository`, `cloneGitRawRepository` and
`getCustomGitCloneCommand` fail with a validation error whenever `url` or
`branch` is falsy — the local executors before any collaborator event —
while `cloneRawGitRepositoryRemote` validates only `serverId` and `url`
(failing before any event), not `branch`. -/
theorem clone_operations_validate_url_branch
    (ps : Paths) (o : Oracle) (entity : CloneEntity) (rentity : RemoteEntity)
    (logPath : String) (isCompose : Bool) :
    ((isFalsyStr entity.customGitUrl ||
      isFalsyStr entity.customGitBranch) = true →
      cloneGitRepository ps o entity logPath isCompose =
        ([], .error (.trpc "BAD_REQUEST" "Error: Repository not found")) ∧
      cloneGitRawRepository ps o entity =
        ([], .error (.trpc "BAD_REQUEST" "Error: Repository not found"))) ∧
    ((isFalsyStr rentity.customGitUrl ||
      isFalsyStr rentity.customGitBranch) = true →
      ∃ e, (getCustomGitCloneCommand ps o rentity logPath isCompose).2 =
        .error e) ∧
    (isFalsyStr rentity.serverId = true →
      cloneRawGitRepositoryRemote ps o rentity =
        ([], .error (.trpc "NOT_FOUND" "Server not found"))) ∧
    (isFalsyStr rentity.serverId = false →
      isFalsyStr rentity.customGitUrl = true →
      cloneRawGitRepositoryRemote ps o rentity =
        ([], .error (.trpc "NOT_FOUND" "Git Provider not found"))) := by
  refine ⟨fun h => ⟨?_, ?_⟩, fun h => ?_, fun h => ?_, fun h1 h2 => ?_⟩
  · simp [cloneGitRepository, h]
  · simp [cloneGitRawRepository, h]
  · cases hr : o.remoteErr <;> simp [getCustomGitCloneCommand, h, hr]
  · simp [cloneRawGitRepositoryRemote, h]
  · simp [cloneRawGitRepositoryRemote, h1, h2]

/-- Witness for C2 at concrete inputs. -/
theorem clone_operations_validate_url_branch_witness :
    cloneGitRepository ps0 okOracle
        { appName := "app", customGitUrl := none,
          customGitBranch := some "main", customGitSSHKeyId := none }
        "/log" false =
      ([], .error (.trpc "BAD_REQUEST" "Error: Repository not found")) ∧
    cloneRawGitRepositoryRemote ps0 okOracle
        { noBranchRemoteEntity with customGitUrl := none } =
      ([], .error (.trpc "NOT_FOUND" "Git Provider not found")) := by
  have h := clone_operations_validate_url_branch ps0 okOracle
    { appName := "app", customGitUrl := none,
      customGitBranch := some "main", customGitSSHKeyId := none }
    { noBranchRemoteEntity with customGitUrl := none } "/log" false
  exact ⟨(h.1 (by decide)).1, h.2.2.2 (by decide) (by decide)⟩

/-- `scanCalls` distributes over concatenation. -/
theorem scanCalls_append (a b : List GitEvent) :
    scanCalls (a ++ b) = scanCalls a + scanCalls b := by
  simp [scanCalls, List.filter_append]

/-- `scanCalls` across `seqE`: the first step's scans plus, if it
succeeded, the continuation's. -/
theorem scanCalls_seqE (a : List GitEvent × Option GitError)
    (f : Unit → List GitEvent × Option GitError) :
    scanCalls (seqE a f).1 =
      scanCalls a.1 +
        (match a.2 with
         | some _ => 0
         | none => scanCalls (f ()).1) := by
  rcases a with ⟨evs, r⟩
  cases r with
  | none =>
    rcases hf : f () with ⟨evs2, r2⟩
    simp [seqE, hf, scanCalls_append]
  | some e => simp [seqE]

/-- `addHostToKnownHosts` performs exactly one registrar invocation. -/
theorem scanCalls_addHostToKnownHosts (o : Oracle) (url : String) :
    scanCalls (addHostToKnownHosts o url).1 = 1 := by
  unfold addHostToKnownHosts
  cases sanitizeRepoPathSSH url <;> simp [scanCalls]

/-- C3 (counterexample): for an HTTP(S) reference the Known-Hosts Registrar
*is* invoked by `cloneGitRawRepository`. -/
theorem cloneGitRawRepository_https_scan_cex :
    isHttpOrHttps "https://github.com/owner/repo.git" = true ∧
    scanCalls (cloneGitRawRepository ps0 okOracle httpsEntity).1 = 1 := by
  exact ⟨by decide, by decide⟩

/-- C3 (amended): each clone operation invokes the Known-Hosts Registrar at
most once, and `cloneGitRepository`, `getCustomGitCloneCommand` and
`cloneRawGitRepositoryRemote` never invoke it for an HTTP(S) reference —
but `cloneGitRawRepository` registers the host unconditionally, so for it
the HTTP(S) exemption fails. -/
theorem knownHosts_registrar_at_most_once
    (ps : Paths) (o : Oracle) (entity : CloneEntity) (rentity : RemoteEntity)
    (logPath : String) (isCompose : Bool) :
    scanCalls (cloneGitRepository ps o entity logPath isCompose).1 ≤ 1 ∧
    scanCalls (getCustomGitCloneCommand ps o rentity logPath isCompose).1 ≤ 1 ∧
    scanCalls (cloneGitRawRepository ps o entity).1 ≤ 1 ∧
    scanCalls (cloneRawGitRepositoryRemote ps o rentity).1 ≤ 1 ∧
    (isHttpOrHttps (entity.customGitUrl.getD "") = true →
      scanCalls (cloneGitRepository ps o entity logPath isCompose).1 = 0) ∧
    (isHttpOrHttps (rentity.customGitUrl.getD "") = true →
      scanCalls (getCustomGitCloneCommand ps o rentity logPath isCompose).1 = 0 ∧
      scanCalls (cloneRawGitRepositoryRemote ps o rentity).1 = 0) := by
  rcases o with ⟨se, re, ke, ce, rme⟩
  refine ⟨?_, ?_, ?_, ?_, fun hh => ?_, fun hh => ⟨?_, ?_⟩⟩
  · by_cases hv : (isFalsyStr entity.customGitUrl ||
        isFalsyStr entity.customGitBranch) = true
    · simp [cloneGitRepository, hv, scanCalls]
    · simp only [Bool.not_eq_true] at hv
      by_cases hh : isHttpOrHttps (entity.customGitUrl.getD "") = true <;>
      by_cases hk : isFalsyStr entity.customGitSSHKeyId = true <;>
      rcases hsan : sanitizeRepoPathSSH (entity.customGitUrl.getD "") with _ | loc <;>
      cases se <;> cases re <;> cases ke <;> cases ce <;>
      simp [cloneGitRepository, cloneGitRepositoryBody, seqE, addHostToKnownHosts,
        hv, hh, hk, hsan, scanCalls, scanCalls_append]
  · by_cases hv : (isFalsyStr rentity.customGitUrl ||
        isFalsyStr rentity.customGitBranch) = true
    · cases rme <;> simp [getCustomGitCloneCommand, hv, scanCalls]
    · simp only [Bool.not_eq_true] at hv
      by_cases hh : isHttpOrHttps (rentity.customGitUrl.getD "") = true <;>
      by_cases hk : isFalsyStr rentity.customGitSSHKeyId = true <;>
      rcases hsan : sanitizeRepoPathSSH (rentity.customGitUrl.getD "") with _ | loc <;>
      cases ke <;>
      simp [getCustomGitCloneCommand, addHostToKnownHostsCommand, hv, hh, hk,
        hsan, scanCalls, scanCalls_append]
  · by_cases hv : (isFalsyStr entity.customGitUrl ||
        isFalsyStr entity.customGitBranch) = true
    · simp [cloneGitRawRepository, hv, scanCalls]
    · simp only [Bool.not_eq_true] at hv
      by_cases hk : isFalsyStr entity.customGitSSHKeyId = true <;>
      rcases hsan : sanitizeRepoPathSSH (entity.customGitUrl.getD "") with _ | loc <;>
      cases se <;> cases re <;> cases ke <;> cases ce <;>
      simp [cloneGitRawRepository, seqE, addHostToKnownHosts, hv, hk, hsan,
        scanCalls, scanCalls_append]
  · by_cases hs : isFalsyStr rentity.serverId = true
    · simp [cloneRawGitRepositoryRemote, hs, scanCalls]
    · by_cases hu : isFalsyStr rentity.customGitUrl = true
      · simp [cloneRawGitRepositoryRemote, hs, hu, scanCalls]
      · by_cases hh : isHttpOrHttps (rentity.customGitUrl.getD "") = true <;>
        by_cases hk : isFalsyStr rentity.customGitSSHKeyId = true <;>
        rcases hsan : sanitizeRepoPathSSH (rentity.customGitUrl.getD "") with _ | loc <;>
        cases ke <;> cases rme <;>
        simp [cloneRawGitRepositoryRemote, addHostToKnownHostsCommand, hs, hu,
          hh, hk, hsan, scanCalls, scanCalls_append]
  · by_cases hv : (isFalsyStr entity.customGitUrl ||
        isFalsyStr entity.customGitBranch) = true
    · simp [cloneGitRepository, hv, scanCalls]
    · simp only [Bool.not_eq_true] at hv
      by_cases hk : isFalsyStr entity.customGitSSHKeyId = true <;>
      cases re <;> cases ke <;> cases ce <;>
      simp [cloneGitRepository, cloneGitRepositoryBody, seqE, hv, hh, hk,
        scanCalls, scanCalls_append]
  · by_cases hv : (isFalsyStr rentity.customGitUrl ||
        isFalsyStr rentity.customGitBranch) = true
    · cases rme <;> simp [getCustomGitCloneCommand, hv, scanCalls]
    · simp only [Bool.not_eq_true] at hv
      by_cases hk : isFalsyStr rentity.customGitSSHKeyId = true <;>
      cases ke <;>
      simp [getCustomGitCloneCommand, hv, hh, hk, scanCalls, scanCalls_append]
  · by_cases hs : isFalsyStr rentity.serverId = true
    · simp [cloneRawGitRepositoryRemote, hs, scanCalls]
    · by_cases hu : isFalsyStr rentity.customGitUrl = true
      · simp [cloneRawGitRepositoryRemote, hs, hu, scanCalls]
      · by_cases hk : isFalsyStr rentity.customGitSSHKeyId = true <;>
        cases ke <;> cases rme <;>
        simp [cloneRawGitRepositoryRemote, hs, hu, hh, hk, scanCalls,
          scanCalls_append]

/-- Witness for C3: concrete HTTP(S) runs never touch the registrar in the
exempted operations. -/
theorem knownHosts_registrar_at_most_once_witness :
    scanCalls (cloneGitRepository ps0 okOracle httpsEntity "/log" false).1 = 0 ∧
    scanCalls (cloneRawGitRepositoryRemote ps0 okOracle
      { sshRemoteEntity with
        customGitUrl := some "https://github.com/owner/repo.git" }).1 = 0 := by
  have h := knownHosts_registrar_at_most_once ps0 okOracle httpsEntity
    { sshRemoteEntity with
      customGitUrl := some "https://github.com/owner/repo.git" } "/log" false
  exact ⟨h.2.2.2.2.1 (by decide), (h.2.2.2.2.2 (by decide)).2⟩

/-- C4 (counterexample): a rejection of the credential-bookkeeping call
`updateSSHKeyById` *does* make `cloneGitRepository` fail — the error
surfaces to the caller. -/
theorem updateSSHKey_error_fails_clone_cex :
    (cloneGitRepository ps0 { okOracle with sshKeyErr := some "db down" }
      sshEntity "/log" false).2 = .error (.collab "db down") := by
  decide

/-- C4 (amended): when a credential id is supplied and `updateSSHKeyById`
rejects, `cloneGitRepository` catches the error in the same handler as
clone errors: the failure marker is written, the error is re-raised to the
caller, and the clone child process is never spawned. -/
theorem updateSSHKey_error_propagates
    (ps : Paths) (o : Oracle) (entity : CloneEntity) (logPath : String)
    (isCompose : Bool) (m : String)
    (hv : (isFalsyStr entity.customGitUrl ||
      isFalsyStr entity.customGitBranch) = false)
    (hk : isFalsyStr entity.customGitSSHKeyId = false)
    (hh : isHttpOrHttps (entity.customGitUrl.getD "") = true)
    (hre : o.recreateErr = none)
    (hke : o.sshKeyErr = some m) :
    (cloneGitRepository ps o entity logPath isCompose).2 =
      .error (.collab m) ∧
    GitEvent.logWrite (cloneErrorLine (.collab m)) ∈
      (cloneGitRepository ps o entity logPath isCompose).1 ∧
    ∀ args env, GitEvent.spawnGit args env ∉
      (cloneGitRepository ps o entity logPath isCompose).1 := by
  rcases o with ⟨se, re, ke, ce, rme⟩
  simp only at hre hke
  subst hre; subst hke
  simp [cloneGitRepository, cloneGitRepositoryBody, seqE, hv, hk, hh]

/-- Witness for C4 at a concrete HTTPS entity with a credential. -/
theorem updateSSHKey_error_propagates_witness :
    (cloneGitRepository ps0 { okOracle with sshKeyErr := some "boom" }
      { httpsEntity with customGitSSHKeyId := some "key1" } "/log" false).2 =
      .error (.collab "boom") ∧
    GitEvent.logWrite (cloneErrorLine (.collab "boom")) ∈
      (cloneGitRepository ps0 { okOracle with sshKeyErr := some "boom" }
        { httpsEntity with customGitSSHKeyId := some "key1" } "/log" false).1 := by
  have h := updateSSHKey_error_propagates ps0
    { okOracle with sshKeyErr := some "boom" }
    { httpsEntity with customGitSSHKeyId := some "key1" } "/log" false "boom"
    (by decide) (by decide) (by decide) rfl rfl
  exact ⟨h.1, h.2.1⟩

/-- The last element of `x :: evs ++ [w, c]` is `c`. -/
theorem getLast?_cons_append_pair {α : Type} (x w c : α) (evs : List α) :
    (x :: (evs ++ [w, c])).getLast? = some c := by
  induction evs generalizing x with
  | nil => rfl
  | cons a evs ih =>
    rw [List.cons_append, List.getLast?_cons_cons]
    exact ih a

/-- C8: once validation has passed, every run of `cloneGitRepository` ends
by closing the log sink, a failing run writes the failure marker with the
error detail immediately before the close and re-raises that same error,
and a successful run writes the success line immediately before the
close. -/
theorem cloneGitRepository_failure_marker_and_close
    (ps : Paths) (o : Oracle) (entity : CloneEntity) (logPath : String)
    (isCompose : Bool)
    (hv : (isFalsyStr entity.customGitUrl ||
      isFalsyStr entity.customGitBranch) = false) :
    (∀ e, (cloneGitRepository ps o entity logPath isCompose).2 = .error e →
      ∃ evs, (cloneGitRepository ps o entity logPath isCompose).1 =
        .openLogSink logPath :: evs ++
          [.logWrite (cloneErrorLine e), .closeLogSink]) ∧
    ((cloneGitRepository ps o entity logPath isCompose).2 = .ok () →
      ∃ evs, (cloneGitRepository ps o entity logPath isCompose).1 =
        .openLogSink logPath :: evs ++
          [.logWrite (clonedLine (entity.customGitUrl.getD "")),
           .closeLogSink]) ∧
    (cloneGitRepository ps o entity logPath isCompose).1.getLast? =
      some .closeLogSink := by
  rcases hb : cloneGitRepositoryBody ps o entity isCompose with ⟨evs, r⟩
  cases r with
  | some e =>
    have hr : cloneGitRepository ps o entity logPath isCompose =
        (.openLogSink logPath :: evs ++
          [.logWrite (cloneErrorLine e), .closeLogSink], .error e) := by
      simp [cloneGitRepository, hv, hb]
    refine ⟨fun e' he' => ⟨evs, ?_⟩, fun hok => ?_, ?_⟩
    · rw [hr] at he' ⊢
      simp at he'
      simp [he']
    · rw [hr] at hok; simp at hok
    · rw [hr]; exact getLast?_cons_append_pair _ _ _ _
  | none =>
    have hr : cloneGitRepository ps o entity logPath isCompose =
        (.openLogSink logPath :: evs ++
          [.logWrite (clonedLine (entity.customGitUrl.getD "")),
           .closeLogSink], .ok ()) := by
      simp [cloneGitRepository, hv, hb]
    refine ⟨fun e' he' => ?_, fun hok => ⟨evs, ?_⟩, ?_⟩
    · rw [hr] at he'; simp at he'
    · rw [hr]
    · rw [hr]; exact getLast?_cons_append_pair _ _ _ _

/-- Witness for C8: a failing clone child process still closes the sink. -/
theorem cloneGitRepository_failure_marker_and_close_witness :
    (cloneGitRepository ps0 { okOracle with cloneErr := some "exit 128" }
      sshEntity "/log" false).1.getLast? = some .closeLogSink := by
  exact (cloneGitRepository_failure_marker_and_close ps0
    { okOracle with cloneErr := some "exit 128" } sshEntity "/log" false
    (by decide)).2.2

/-- C10: in every run of `cloneGitRepository` that reaches the clone spawn,
the check-marked line naming both the repository URL and the destination
path is written to the log sink strictly before the spawn, and when the
spawn then fails the failure marker is also written (after the spawn).
`takeWhile (!isSpawn)` is the trace segment before the first spawn and
`dropWhile (!isSpawn)` the segment from the first spawn on. -/
theorem cloningRepoLine_before_spawn
    (ps : Paths) (o : Oracle) (entity : CloneEntity) (logPath : String)
    (isCompose : Bool)
    (hv : (isFalsyStr entity.customGitUrl ||
      isFalsyStr entity.customGitBranch) = false)
    (hhost : isHttpOrHttps (entity.customGitUrl.getD "") = true ∨
      ((∃ loc, sanitizeRepoPathSSH (entity.customGitUrl.getD "") = some loc) ∧
        o.scanErr = none))
    (hre : o.recreateErr = none)
    (hkey : isFalsyStr entity.customGitSSHKeyId = true ∨ o.sshKeyErr = none) :
    GitEvent.logWrite (cloningRepoLine (entity.customGitUrl.getD "")
        ((if isCompose then ps.composePath else ps.applicationsPath) ++
          "/" ++ entity.appName ++ "/code")) ∈
      ((cloneGitRepository ps o entity logPath isCompose).1.takeWhile
        (fun e => !isSpawn e)) ∧
    ((cloneGitRepository ps o entity logPath isCompose).1.dropWhile
        (fun e => !isSpawn e)) ≠ [] ∧
    (∀ m, o.cloneErr = some m →
      GitEvent.logWrite (cloneErrorLine (.collab m)) ∈
        ((cloneGitRepository ps o entity logPath isCompose).1.dropWhile
          (fun e => !isSpawn e))) := by
  rcases o with ⟨se, re, ke, ce, rme⟩
  simp only at hre hkey hhost
  subst hre
  rcases hhost with hh | ⟨⟨loc, hsan⟩, hse⟩
  · rcases hkey with hk | hke
    · cases ce <;>
        simp [cloneGitRepository, cloneGitRepositoryBody, seqE, hv, hh, hk,
          isSpawn, List.takeWhile, List.dropWhile]
    · subst hke
      by_cases hk : isFalsyStr entity.customGitSSHKeyId = true <;>
      cases ce <;>
        simp [cloneGitRepository, cloneGitRepositoryBody, seqE, hv, hh, hk,
          isSpawn, List.takeWhile, List.dropWhile]
  · subst hse
    rcases hkey with hk | hke
    · by_cases hh2 : isHttpOrHttps (entity.customGitUrl.getD "") = true <;>
      cases ce <;>
        simp [cloneGitRepository, cloneGitRepositoryBody, seqE,
          addHostToKnownHosts, hv, hsan, hk, hh2, isSpawn,
          List.takeWhile, List.dropWhile]
    · subst hke
      by_cases hh2 : isHttpOrHttps (entity.customGitUrl.getD "") = true <;>
      by_cases hk : isFalsyStr entity.customGitSSHKeyId = true <;>
      cases ce <;>
        simp [cloneGitRepository, cloneGitRepositoryBody, seqE,
          addHostToKnownHosts, hv, hsan, hk, hh2, isSpawn,
          List.takeWhile, List.dropWhile]

/-- Witness for C10: a concrete SSH run whose clone fails. -/
theorem cloningRepoLine_before_spawn_witness :
    GitEvent.logWrite (cloningRepoLine "git@github.com:owner/repo.git"
        "/etc/dokploy/applications/app/code") ∈
      ((cloneGitRepository ps0 { okOracle with cloneErr := some "exit 128" }
        sshEntity "/log" false).1.takeWhile (fun e => !isSpawn e)) ∧
    GitEvent.logWrite (cloneErrorLine (.collab "exit 128")) ∈
      ((cloneGitRepository ps0 { okOracle with cloneErr := some "exit 128" }
        sshEntity "/log" false).1.dropWhile (fun e => !isSpawn e)) := by
  have h := cloningRepoLine_before_spawn ps0
    { okOracle with cloneErr := some "exit 128" } sshEntity "/log" false
    (by decide)
    (Or.inr ⟨⟨⟨"git", "github.com", 22, "owner", "repo"⟩, by decide⟩, rfl⟩)
    rfl (Or.inr rfl)
  exact ⟨h.1, h.2.2 "exit 128" rfl⟩

set_option maxRecDepth 4000 in
/-- C1 (counterexample): the local executor passes `--recurse-submodules`
to the spawned `git`, while the script text built for the same reference
never mentions that flag — the two invocations are not flag-for-flag
equal. -/
theorem clone_flags_differ_cex :
    GitEvent.spawnGit
        (gitCloneArgs "main" "git@github.com:owner/repo.git"
          "/etc/dokploy/applications/app/code")
        (some ("ssh -i /etc/dokploy/ssh/key1_rsa " ++
          "-o UserKnownHostsFile=/etc/dokploy/ssh/known_hosts")) ∈
      (cloneGitRepository ps0 okOracle sshEntity "/log" false).1 ∧
    "--recurse-submodules" ∈ gitCloneArgs "main"
      "git@github.com:owner/repo.git" "/etc/dokploy/applications/app/code" ∧
    ((getCustomGitCloneCommand ps0 okOracle sshRemoteEntity "/log"
        false).2.toOption.map
      (fun s => hasInfix "--recurse-submodules".data s.data)) =
      some false := by
  exact ⟨by decide, by decide, by decide⟩

/-- C1 (amended): the two clone invocations agree on `--branch`,
`--depth 1`, `--progress`, the repository URL and the destination path —
the remote argv extended with `--recurse-submodules` is a permutation of
the local argv — but the local executor additionally passes
`--recurse-submodules`, which the remote command text omits.  The second
conjunct ties `remoteGitCloneArgv` to the exact command text emitted
inside the script. -/
theorem cloneArgs_agree_except_recurse_submodules
    (branch url outputPath logPath : String) :
    List.Perm
      (remoteGitCloneArgv branch url outputPath ++ ["--recurse-submodules"])
      (gitCloneArgs branch url outputPath) ∧
    (remoteCloneBlock branch url outputPath logPath).data =
      "if ! git ".data ++
        (String.intercalate " "
          (remoteGitCloneArgv branch url outputPath)).data ++
        (" >> " ++ logPath ++
          " 2>&1; then\n\t\t\t\techo \"❌ [ERROR] Fail to clone the repository " ++
          url ++ "\" >> " ++ logPath ++
          ";\n\t\t\t\texit 1;\n\t\t\tfi\n\t\t\t").data := by
  constructor
  · exact List.Perm.append_left ["clone", "--branch", branch, "--depth", "1"]
      (perm_swap_ends "--progress" "--recurse-submodules" [url, outputPath])
  · simp [remoteCloneBlock, remoteGitCloneArgv, String.intercalate,
      String.intercalate.go]

/-! ## Combinator lemmas: decomposition of successes, greedy first-match
computation, and total-failure propagation -/

/-- A successful `manyG` run splits the input at a `p`-respecting point on
which the continuation succeeds. -/
theorem manyG_some {α : Type} {p : Char → Bool} :
    ∀ {s : List Char} {k : List Char → List Char → Option α} {a : α},
      manyG p s k = some a →
      ∃ m r, s = m ++ r ∧ (∀ c ∈ m, p c = true) ∧ k m r = some a := by
  intro s
  induction s with
  | nil =>
    intro k a h
    exact ⟨[], [], rfl, by simp, h⟩
  | cons c rest ih =>
    intro k a h
    simp only [manyG] at h
    by_cases hp : p c = true
    · rw [if_pos hp] at h
      rcases hm : manyG p rest (fun m r => k (c :: m) r) with _ | a'
      · rw [hm] at h
        exact ⟨[], c :: rest, rfl, by simp, h⟩
      · rw [hm] at h
        cases h
        obtain ⟨m, r, hsplit, hall, hk⟩ := ih hm
        refine ⟨c :: m, r, by simp [hsplit], ?_, hk⟩
        intro x hx
        rcases List.mem_cons.mp hx with h1 | h2
        · exact h1 ▸ hp
        · exact hall x h2
    · rw [if_neg hp] at h
      exact ⟨[], c :: rest, rfl, by simp, h⟩

/-- A successful `plusG` run: like `manyG_some` with a non-empty match. -/
theorem plusG_some {α : Type} {p : Char → Bool}
    {s : List Char} {k : List Char → List Char → Option α} {a : α}
    (h : plusG p s k = some a) :
    ∃ m r, s = m ++ r ∧ m ≠ [] ∧ (∀ c ∈ m, p c = true) ∧ k m r = some a := by
  cases s with
  | nil => simp [plusG] at h
  | cons c rest =>
    simp only [plusG] at h
    by_cases hp : p c = true
    · rw [if_pos hp] at h
      obtain ⟨m, r, hsplit, hall, hk⟩ := manyG_some h
      refine ⟨c :: m, r, by simp [hsplit], by simp, ?_, hk⟩
      intro x hx
      rcases List.mem_cons.mp hx with h1 | h2
      · exact h1 ▸ hp
      · exact hall x h2
    · rw [if_neg hp] at h
      cases h

/-- A successful `upToG` run: a bounded `p`-respecting split. -/
theorem upToG_some {α : Type} {p : Char → Bool} :
    ∀ {n : Nat} {s : List Char} {k : List Char → List Char → Option α} {a : α},
      upToG p n s k = some a →
      ∃ m r, s = m ++ r ∧ m.length ≤ n ∧ (∀ c ∈ m, p c = true) ∧
        k m r = some a := by
  intro n
  induction n with
  | zero =>
    intro s k a h
    exact ⟨[], s, rfl, by simp, by simp, h⟩
  | succ n ih =>
    intro s k a h
    cases s with
    | nil => exact ⟨[], [], rfl, by simp, by simp, h⟩
    | cons c rest =>
      simp only [upToG] at h
      by_cases hp : p c = true
      · rw [if_pos hp] at h
        rcases hm : upToG p n rest (fun m r => k (c :: m) r) with _ | a'
        · rw [hm] at h
          exact ⟨[], c :: rest, rfl, by simp, by simp, h⟩
        · rw [hm] at h
          cases h
          obtain ⟨m, r, hsplit, hlen, hall, hk⟩ := ih hm
          refine ⟨c :: m, r, by simp [hsplit], by simpa using hlen, ?_, hk⟩
          intro x hx
          rcases List.mem_cons.mp hx with h1 | h2
          · exact h1 ▸ hp
          · exact hall x h2
      · rw [if_neg hp] at h
        exact ⟨[], c :: rest, rfl, by simp, by simp, h⟩

/-- A successful `repoMany` run: a valid item run on which the
continuation succeeds. -/
theorem repoMany_some {α : Type} :
    ∀ {s : List Char} {k : List Char → List Char → Option α} {a : α},
      repoMany s k = some a →
      ∃ m r, s = m ++ r ∧ itemsOK m r ∧ k m r = some a := by
  intro s
  induction s with
  | nil =>
    intro k a h
    exact ⟨[], [], rfl, trivial, h⟩
  | cons c rest ih =>
    intro k a h
    simp only [repoMany] at h
    by_cases hp : repoItem c rest = true
    · rw [if_pos hp] at h
      rcases hm : repoMany rest (fun m r => k (c :: m) r) with _ | a'
      · rw [hm] at h
        exact ⟨[], c :: rest, rfl, trivial, h⟩
      · rw [hm] at h
        cases h
        obtain ⟨m, r, hsplit, hok, hk⟩ := ih hm
        exact ⟨c :: m, r, by simp [hsplit],
          ⟨by rw [← hsplit]; exact hp, hok⟩, hk⟩
    · rw [if_neg hp] at h
      exact ⟨[], c :: rest, rfl, trivial, h⟩

/-- A successful `repoPlus` run: a non-empty valid item run. -/
theorem repoPlus_some {α : Type}
    {s : List Char} {k : List Char → List Char → Option α} {a : α}
    (h : repoPlus s k = some a) :
    ∃ m r, s = m ++ r ∧ m ≠ [] ∧ itemsOK m r ∧ k m r = some a := by
  cases s with
  | nil => simp [repoPlus] at h
  | cons c rest =>
    simp only [repoPlus] at h
    by_cases hp : repoItem c rest = true
    · rw [if_pos hp] at h
      obtain ⟨m, r, hsplit, hok, hk⟩ := repoMany_some h
      exact ⟨c :: m, r, by simp [hsplit], by simp,
        ⟨by rw [← hsplit]; exact hp, hok⟩, hk⟩
    · rw [if_neg hp] at h
      cases h

/-- Greedy first match: when the continuation succeeds at the maximal
`p`-run, `manyG` returns exactly that success. -/
theorem manyG_munch {α : Type} {p : Char → Bool} :
    ∀ {m r : List Char} {k : List Char → List Char → Option α} {a : α},
      (∀ c ∈ m, p c = true) →
      (r = [] ∨ ∃ c' r', r = c' :: r' ∧ p c' = false) →
      k m r = some a → manyG p (m ++ r) k = some a := by
  intro m
  induction m with
  | nil =>
    intro r k a _ hr hk
    rcases hr with rfl | ⟨c', r', rfl, hc'⟩
    · exact hk
    · simp [manyG, hc', hk]
  | cons x m ih =>
    intro r k a hall hr hk
    have hx : p x = true := hall x (by simp)
    have : manyG p (m ++ r) (fun m' r' => k (x :: m') r') = some a :=
      ih (fun c hc => hall c (by simp [hc])) hr hk
    simp [manyG, hx, this]

/-- Greedy first match for `plusG`. -/
theorem plusG_munch {α : Type} {p : Char → Bool}
    {c : Char} {m r : List Char} {k : List Char → List Char → Option α}
    {a : α} (hc : p c = true) (hall : ∀ x ∈ m, p x = true)
    (hr : r = [] ∨ ∃ c' r', r = c' :: r' ∧ p c' = false)
    (hk : k (c :: m) r = some a) :
    plusG p (c :: (m ++ r)) k = some a := by
  simp only [plusG, if_pos hc]
  exact manyG_munch hall hr hk

/-- Greedy first match for `upToG`. -/
theorem upToG_munch {α : Type} {p : Char → Bool} :
    ∀ {m : List Char} {n : Nat} {r : List Char}
      {k : List Char → List Char → Option α} {a : α},
      (∀ c ∈ m, p c = true) → m.length ≤ n →
      (r = [] ∨ ∃ c' r', r = c' :: r' ∧ p c' = false) →
      k m r = some a → upToG p n (m ++ r) k = some a := by
  intro m
  induction m with
  | nil =>
    intro n r k a _ _ hr hk
    cases n with
    | zero => exact hk
    | succ n =>
      rcases hr with rfl | ⟨c', r', rfl, hc'⟩
      · exact hk
      · simp [upToG, hc', hk]
  | cons x m ih =>
    intro n r k a hall hlen hr hk
    have hx : p x = true := hall x (by simp)
    cases n with
    | zero => simp at hlen
    | succ n =>
      have : upToG p n (m ++ r) (fun m' r' => k (x :: m') r') = some a :=
        ih (fun c hc => hall c (by simp [hc])) (by simpa using hlen) hr hk
      simp [upToG, hx, this]

/-- Greedy first match for `repoMany`: when the next character is not a
valid item and the continuation succeeds at the full item run. -/
theorem repoMany_munch {α : Type} :
    ∀ {m r : List Char} {k : List Char → List Char → Option α} {a : α},
      itemsOK m r →
      (r = [] ∨ ∃ c' r', r = c' :: r' ∧ repoItem c' r' = false) →
      k m r = some a → repoMany (m ++ r) k = some a := by
  intro m
  induction m with
  | nil =>
    intro r k a _ hr hk
    rcases hr with rfl | ⟨c', r', rfl, hc'⟩
    · exact hk
    · simp [repoMany, hc', hk]
  | cons x m ih =>
    intro r k a hok hr hk
    obtain ⟨hx, hok'⟩ := hok
    have : repoMany (m ++ r) (fun m' r' => k (x :: m') r') = some a :=
      ih hok' hr hk
    simp [repoMany, hx, this]

/-- `manyG` fails when the continuation fails on every split. -/
theorem manyG_none {α : Type} {p : Char → Bool} :
    ∀ {s : List Char} {k : List Char → List Char → Option α},
      (∀ m r, s = m ++ r → k m r = none) → manyG p s k = none := by
  intro s
  induction s with
  | nil =>
    intro k h
    exact h [] [] rfl
  | cons c rest ih =>
    intro k h
    have hfall : k [] (c :: rest) = none := h [] (c :: rest) rfl
    by_cases hp : p c = true
    · have : manyG p rest (fun m r => k (c :: m) r) = none :=
        ih fun m r hmr => h (c :: m) r (by simp [hmr])
      simp [manyG, hp, this, hfall]
    · simp [manyG, hp, hfall]

/-- `plusG` fails when the continuation fails on every non-empty split. -/
theorem plusG_none {α : Type} {p : Char → Bool}
    {s : List Char} {k : List Char → List Char → Option α}
    (h : ∀ m r, s = m ++ r → m ≠ [] → k m r = none) :
    plusG p s k = none := by
  cases s with
  | nil => simp [plusG]
  | cons c rest =>
    by_cases hp : p c = true
    · have : manyG p rest (fun m r => k (c :: m) r) = none :=
        manyG_none fun m r hmr => h (c :: m) r (by simp [hmr]) (by simp)
      simp [plusG, hp, this]
    · simp [plusG, hp]

/-- Valid item runs restrict to suffixes. -/
theorem itemsOK_suffix : ∀ {x y r : List Char}, itemsOK (x ++ y) r →
    itemsOK y r := by
  intro x
  induction x with
  | nil => intro y r h; exact h
  | cons c x ih =>
    intro y r h
    exact ih h.2

/-- Every character of a valid item run is a `repo` character. -/
theorem itemsOK_repoChar : ∀ {m r : List Char}, itemsOK m r →
    ∀ c ∈ m, repoChar c = true := by
  intro m
  induction m with
  | nil => intro r _ c hc; cases hc
  | cons x m ih =>
    intro r h c hc
    rcases List.mem_cons.mp hc with rfl | hc'
    · have := h.1
      simp only [repoItem, Bool.or_eq_true, Bool.and_eq_true] at this
      rcases this with h1 | ⟨h2, _⟩
      · simp [repoChar, h1]
      · simp [repoChar, h2]
    · exact ih h.2 c hc'

/-- Rebuilding a string from its characters. -/
theorem String_mk_data (s : String) : String.mk s.data = s := by
  cases s
  rfl

/-! ## Group-level decomposition of successful matches -/

/-- A successful `protoOpt` continues with some proto value. -/
theorem protoOpt_some {α : Type}
    {s : List Char} {k : Option String → List Char → Option α} {a : α}
    (h : protoOpt s k = some a) :
    ∃ pro s2, k pro s2 = some a := by
  simp only [protoOpt] at h
  rcases hm : plusG alphaCI s (fun m r =>
      match r with
      | ':' :: '/' :: '/' :: r2 => k (some (String.mk m)) r2
      | _ => none) with _ | a'
  · rw [hm] at h
    exact ⟨none, s, h⟩
  · rw [hm] at h
    cases h
    obtain ⟨m, r, _, _, _, hk⟩ := plusG_some hm
    split at hk
    · exact ⟨_, _, hk⟩
    · cases hk

/-- A successful `userOpt` either captures a user of the right shape or
falls back to no user. -/
theorem userOpt_some {α : Type}
    {s : List Char} {k : Option String → List Char → Option α} {a : α}
    (h : userOpt s k = some a) :
    (∃ u s3, userShapeP u ∧ k (some (String.mk u)) s3 = some a) ∨
      k none s = some a := by
  cases s with
  | nil => exact Or.inr h
  | cons c rest =>
    simp only [userOpt] at h
    by_cases hc : userFirst c = true
    · rw [if_pos hc] at h
      rcases hm : plusG userRest rest (fun m r =>
          match r with
          | '@' :: r2 => k (some (String.mk (c :: m))) r2
          | _ => none) with _ | a'
      · rw [hm] at h
        exact Or.inr h
      · rw [hm] at h
        cases h
        obtain ⟨m, r, _, hne, hall, hk⟩ := plusG_some hm
        split at hk
        · exact Or.inl ⟨c :: m, _, ⟨c, m, rfl, hc, hne, hall⟩, hk⟩
        · cases hk
    · rw [if_neg hc] at h
      exact Or.inr h

/-- A successful `portOpt` either captures 1–5 digits or falls back. -/
theorem portOpt_some {α : Type}
    {s : List Char} {k : Option String → List Char → Option α} {a : α}
    (h : portOpt s k = some a) :
    (∃ d s5, d ≠ [] ∧ d.length ≤ 5 ∧ (∀ c ∈ d, isDigitCh c = true) ∧
      k (some (String.mk d)) s5 = some a) ∨ k none s = some a := by
  simp only [portOpt] at h
  split at h
  case h_1 c rest =>
    by_cases hc : isDigitCh c = true
    · rw [if_pos hc] at h
      rcases hm : upToG isDigitCh 4 rest
          (fun m r => k (some (String.mk (c :: m))) r) with _ | a'
      · rw [hm] at h
        exact Or.inr h
      · rw [hm] at h
        cases h
        obtain ⟨m, r, _, hlen, hall, hk⟩ := upToG_some hm
        refine Or.inl ⟨c :: m, r, by simp, by simpa using hlen, ?_, hk⟩
        intro x hx
        rcases List.mem_cons.mp hx with rfl | hx'
        · exact hc
        · exact hall x hx'
    · rw [if_neg hc] at h
      exact Or.inr h
  case h_2 => exact Or.inr h

/-- A successful `ownerOpt` either captures a non-empty owner, or falls
back — and in the fallback case the owner capture attempt on the same
input is known to fail. -/
theorem ownerOpt_some {α : Type}
    {s : List Char} {k : Option String → List Char → Option α} {a : α}
    (h : ownerOpt s k = some a) :
    (∃ m s6, m ≠ [] ∧ (∀ x ∈ m, domainChar x = true) ∧
      k (some (String.mk m)) s6 = some a) ∨
    (k none s = some a ∧ ∀ c rest, s = c :: rest → (c = '/' ∨ c = ':') →
      plusG domainChar rest (fun m r => k (some (String.mk m)) r) = none) := by
  cases s with
  | nil =>
    refine Or.inr ⟨h, ?_⟩
    intro c rest hcr
    cases hcr
  | cons c rest =>
    simp only [ownerOpt] at h
    by_cases hc : (c = '/' || c = ':') = true
    · rw [if_pos hc] at h
      rcases hm : plusG domainChar rest
          (fun m r => k (some (String.mk m)) r) with _ | a'
      · rw [hm] at h
        refine Or.inr ⟨h, ?_⟩
        intro c' rest' hcr _
        cases hcr
        exact hm
      · rw [hm] at h
        cases h
        obtain ⟨m, r, _, hne, hall, hk⟩ := plusG_some hm
        exact Or.inl ⟨m, r, hne, hall, hk⟩
    · rw [if_neg hc] at h
      refine Or.inr ⟨h, ?_⟩
      intro c' rest' hcr hor
      cases hcr
      exact absurd (by simpa using hor) (by simpa using hc)

/-- A successful `repoGrp`: a `[/:]` separator followed by a non-empty
valid item run on which the continuation succeeds. -/
theorem repoGrp_some {α : Type}
    {s : List Char} {k : String → List Char → Option α} {a : α}
    (h : repoGrp s k = some a) :
    ∃ c m s7, s = c :: (m ++ s7) ∧ (c = '/' ∨ c = ':') ∧ m ≠ [] ∧
      itemsOK m s7 ∧ k (String.mk m) s7 = some a := by
  cases s with
  | nil => simp [repoGrp] at h
  | cons c rest =>
    simp only [repoGrp] at h
    by_cases hc : (c = '/' || c = ':') = true
    · rw [if_pos hc] at h
      obtain ⟨m, r, hsplit, hne, hok, hk⟩ := repoPlus_some h
      exact ⟨c, m, r, by simp [hsplit], by simpa using hc, hne, hok, hk⟩
    · rw [if_neg hc] at h
      cases h

/-- Splitting a list at the first occurrence of an element. -/
theorem mem_split_first {α : Type} [DecidableEq α] {a : α} :
    ∀ {l : List α}, a ∈ l → ∃ P Q, l = P ++ a :: Q ∧ a ∉ P := by
  intro l
  induction l with
  | nil => intro h; cases h
  | cons x l ih =>
    intro h
    by_cases hx : x = a
    · subst hx
      exact ⟨[], l, rfl, by simp⟩
    · rcases List.mem_cons.mp h with rfl | h'
      · exact absurd rfl hx
      · obtain ⟨P, Q, hl, hP⟩ := ih h'
        exact ⟨x :: P, Q, by simp [hl], by simp [hP, Ne.symm hx]⟩

/-- A valid item run with a succeeding continuation guarantees `repoMany`
finds some success (not necessarily that one). -/
theorem repoMany_exists {α : Type} :
    ∀ {m r : List Char} {k : List Char → List Char → Option α} {a : α},
      itemsOK m r → k m r = some a → ∃ b, repoMany (m ++ r) k = some b := by
  intro m
  induction m with
  | nil =>
    intro r k a _ hk
    cases r with
    | nil => exact ⟨a, hk⟩
    | cons c rest =>
      by_cases hc : repoItem c rest = true
      · rcases hm : repoMany rest (fun m' r' => k (c :: m') r') with _ | b
        · exact ⟨a, by simp [repoMany, hc, hm, hk]⟩
        · exact ⟨b, by simp [repoMany, hc, hm]⟩
      · exact ⟨a, by simp [repoMany, hc, hk]⟩
  | cons x m ih =>
    intro r k a hok hk
    obtain ⟨b, hb⟩ := ih (k := fun m' r' => k (x :: m') r') hok.2 hk
    exact ⟨b, by simp [repoMany, hok.1, hb]⟩

/-- A `repo` character other than `/` is a `domain`/`owner` character. -/
theorem repoChar_domainChar {c : Char} (h : repoChar c = true)
    (hne : c ≠ '/') : domainChar c = true := by
  simp only [repoChar, Bool.or_eq_true] at h
  rcases h with h | h
  · simp only [repoPlainChar, Bool.and_eq_true, bne_iff_ne, ne_eq,
      decide_eq_true_eq] at h
    simp only [domainChar, Bool.and_eq_true, bne_iff_ne, ne_eq,
      decide_eq_true_eq]
    exact ⟨⟨⟨⟨h.1.1.1.1, hne⟩, h.1.1.1.2⟩, h.1.1.2⟩, h.1.2⟩
  · simp only [decide_eq_true_eq] at h
    subst h
    decide

/-- Digit characters have value at most 9. -/
theorem digit_val_le {c : Char} (h : isDigitCh c = true) :
    c.toNat - 0x30 ≤ 9 := by
  simp only [isDigitCh, Bool.and_eq_true, decide_eq_true_eq] at h
  omega

/-- The decimal fold over digit characters is bounded by the length. -/
theorem foldl_digits_lt :
    ∀ (d : List Char) (acc : Nat), (∀ c ∈ d, isDigitCh c = true) →
      List.foldl (fun a c => a * 10 + (c.toNat - 0x30)) acc d <
        (acc + 1) * 10 ^ d.length := by
  intro d
  induction d with
  | nil => intro acc _; simpa using Nat.lt_succ_self acc
  | cons c d ih =>
    intro acc hall
    have hc : c.toNat - 0x30 ≤ 9 := digit_val_le (hall c (by simp))
    have := ih (acc * 10 + (c.toNat - 0x30)) fun x hx => hall x (by simp [hx])
    simp only [List.foldl_cons, List.length_cons]
    calc List.foldl (fun a c => a * 10 + (c.toNat - 0x30))
          (acc * 10 + (c.toNat - 0x30)) d
        < (acc * 10 + (c.toNat - 0x30) + 1) * 10 ^ d.length := this
      _ ≤ ((acc + 1) * 10) * 10 ^ d.length := by
          have : acc * 10 + (c.toNat - 0x30) + 1 ≤ (acc + 1) * 10 := by omega
          exact Nat.mul_le_mul_right _ this
      _ = (acc + 1) * 10 ^ (d.length + 1) := by ring

/-- A string of at most five digits evaluates below `100000`. -/
theorem digitsToNat_le {d : List Char} (hall : ∀ c ∈ d, isDigitCh c = true)
    (hlen : d.length ≤ 5) : digitsToNat (String.mk d) ≤ 99999 := by
  have h := foldl_digits_lt d 0 hall
  have h2 : (0 + 1) * 10 ^ d.length ≤ 10 ^ 5 := by
    simpa using Nat.pow_le_pow_right (by omega) hlen
  have : digitsToNat (String.mk d) < 10 ^ 5 := lt_of_lt_of_le h h2
  simpa [digitsToNat] using Nat.lt_succ_iff.mp (by simpa using this)

/-- When the `owner` group failed to match but the `repo` group then
succeeded, the slash can only sit at the front of the repo capture, at its
very end, or nowhere: any interior slash would have let the greedy `owner`
attempt succeed. -/
theorem junction_of_ownerFail {F : Option String → String → SSHGroups}
    {s5 : List Char} {g : SSHGroups}
    (hF : ∀ ow r, (F ow r).repo = r)
    (h6 : repoGrp s5 (fun repo s7 =>
        if tailMatch s7 then some (F none repo) else none) = some g)
    (hfail : ∀ c rest, s5 = c :: rest → (c = '/' ∨ c = ':') →
      plusG domainChar rest (fun m r =>
        repoGrp r (fun repo s7 =>
          if tailMatch s7 then some (F (some (String.mk m)) repo) else none))
        = none) :
    junctionP g.repo.data := by
  obtain ⟨c, m, s7, hs5, hc, hmne, hok, hkfin⟩ := repoGrp_some h6
  rcases htail : tailMatch s7 with _ | _
  · rw [if_neg (by simp [htail])] at hkfin
    cases hkfin
  · rw [if_pos htail] at hkfin
    have hg : g = F none (String.mk m) := by
      exact (Option.some.inj hkfin).symm
    subst hg
    rw [hF]
    show junctionP m
    by_cases hs : '/' ∈ m
    · obtain ⟨P, Q, hm, hP⟩ := mem_split_first hs
      cases P with
      | nil =>
        left
        simp [hm]
      | cons p0 P' =>
        cases Q with
        | nil =>
          right; right
          exact ⟨p0 :: P', hm, hP⟩
        | cons q0 Q' =>
          exfalso
          have hokQ : itemsOK (q0 :: Q') s7 := by
            have h1 : itemsOK (((p0 :: P') ++ ['/']) ++ (q0 :: Q')) s7 := by
              rw [show ((p0 :: P') ++ ['/']) ++ (q0 :: Q') =
                (p0 :: P') ++ '/' :: q0 :: Q' by simp, ← hm]
              exact hok
            exact itemsOK_suffix h1
          have hmchars : ∀ x ∈ m, repoChar x = true := itemsOK_repoChar hok
          -- the continuation with the owner set to the interior prefix
          have hfin2 : (fun m' r' =>
              if tailMatch r' then
                some (F (some (String.mk (p0 :: P'))) (String.mk (q0 :: m')))
              else none) Q' s7 =
              some (F (some (String.mk (p0 :: P'))) (String.mk (q0 :: Q'))) := by
            simp [htail]
          obtain ⟨b, hb⟩ := repoMany_exists (k := fun m' r' =>
            if tailMatch r' then
              some (F (some (String.mk (p0 :: P'))) (String.mk (q0 :: m')))
            else none) hokQ.2 hfin2
          have hrp : repoPlus ((q0 :: Q') ++ s7) (fun m' r' =>
              if tailMatch r' then
                some (F (some (String.mk (p0 :: P'))) (String.mk m'))
              else none) = some b := by
            have hq0 : repoItem q0 (Q' ++ s7) = true := hokQ.1
            simp only [List.cons_append, repoPlus, if_pos hq0]
            exact hb
          have hKown : repoGrp ('/' :: ((q0 :: Q') ++ s7)) (fun repo s7' =>
              if tailMatch s7' then
                some (F (some (String.mk (p0 :: P'))) repo) else none) =
              some b := by
            simp only [repoGrp]
            rw [if_pos (by simp)]
            have : (fun m' (r' : List Char) =>
                if tailMatch r' then
                  some (F (some (String.mk (p0 :: P'))) (String.mk m'))
                else none) = fun m' r' =>
                  (fun repo s7' => if tailMatch s7' then
                    some (F (some (String.mk (p0 :: P'))) repo) else none)
                  (String.mk m') r' := rfl
            exact hrp
          have hdomP : ∀ x ∈ p0 :: P', domainChar x = true := by
            intro x hx
            refine repoChar_domainChar (hmchars x ?_) ?_
            · rw [hm]
              exact List.mem_append.mpr (Or.inl hx)
            · intro hxeq
              exact hP (hxeq ▸ hx)
          have hsome : plusG domainChar
              ((p0 :: P') ++ ('/' :: ((q0 :: Q') ++ s7)))
              (fun m' r' => repoGrp r' (fun repo s7' =>
                if tailMatch s7' then
                  some (F (some (String.mk m')) repo) else none)) = some b := by
            refine plusG_munch (hdomP p0 (by simp))
              (fun x hx => hdomP x (by simp [hx]))
              (Or.inr ⟨'/', _, rfl, by decide⟩) ?_
            exact hKown
          have hlist : m ++ s7 = (p0 :: P') ++ ('/' :: ((q0 :: Q') ++ s7)) := by
            simp [hm]
          have hnone := hfail c (m ++ s7) hs5 hc
          rw [hlist] at hnone
          rw [hnone] at hsome
          cases hsome
    · right; left
      exact hs

/-- Shape of the capture groups from the `owner` group on, for fixed
earlier captures. -/
theorem shape_core2 {pro us : Option String} {dom : List Char}
    {port : Option String} {s5 : List Char} {g : SSHGroups}
    (h5 : ownerOpt s5 (fun owner s6 =>
      repoGrp s6 fun repo s7 =>
      if tailMatch s7 then
        some { proto := pro, user := us, domain := String.mk dom,
               port := port, owner := owner, repo := repo }
      else none) = some g) :
    g.proto = pro ∧ g.user = us ∧ g.domain = String.mk dom ∧
    g.port = port ∧
    (∀ ow, g.owner = some ow → ow.data ≠ [] ∧
      ∀ c ∈ ow.data, domainChar c = true) ∧
    (g.repo.data ≠ [] ∧ ∀ c ∈ g.repo.data, repoChar c = true) ∧
    (g.owner = none → junctionP g.repo.data) := by
  rcases ownerOpt_some h5 with ⟨mo, s6, hmone, hmoall, h6⟩ | ⟨h6, hfail⟩
  · obtain ⟨c, m, s7, hs6, hc, hmne, hok, hkfin⟩ := repoGrp_some h6
    rcases htail : tailMatch s7 with _ | _
    · rw [if_neg (by simp [htail])] at hkfin
      cases hkfin
    · rw [if_pos htail] at hkfin
      have hg := (Option.some.inj hkfin).symm
      subst hg
      refine ⟨rfl, rfl, rfl, rfl, ?_, ⟨hmne, itemsOK_repoChar hok⟩, ?_⟩
      · intro ow how
        cases Option.some.inj how
        exact ⟨hmone, hmoall⟩
      · intro hnone
        exact Option.noConfusion hnone
  · have hjunction := junction_of_ownerFail
      (F := fun ow repo =>
        { proto := pro, user := us, domain := String.mk dom,
          port := port, owner := ow, repo := repo })
      (fun _ _ => rfl) h6 hfail
    obtain ⟨c, m, s7, hs5, hc, hmne, hok, hkfin⟩ := repoGrp_some h6
    rcases htail : tailMatch s7 with _ | _
    · rw [if_neg (by simp [htail])] at hkfin
      cases hkfin
    · rw [if_pos htail] at hkfin
      have hg := (Option.some.inj hkfin).symm
      subst hg
      refine ⟨rfl, rfl, rfl, rfl, ?_, ⟨hmne, itemsOK_repoChar hok⟩,
        fun _ => hjunction⟩
      intro ow how
      exact Option.noConfusion how

/-- Shape of the capture groups from the `domain` group on, for fixed
`proto`/`user` captures. -/
theorem shape_core {pro us : Option String} {s3 : List Char} {g : SSHGroups}
    (h : plusG domainChar s3 (fun dom s4 =>
      portOpt s4 fun port s5 =>
      ownerOpt s5 fun owner s6 =>
      repoGrp s6 fun repo s7 =>
      if tailMatch s7 then
        some { proto := pro, user := us, domain := String.mk dom,
               port := port, owner := owner, repo := repo }
      else none) = some g) :
    g.proto = pro ∧ g.user = us ∧
    (g.domain.data ≠ [] ∧ ∀ c ∈ g.domain.data, domainChar c = true) ∧
    (∀ d, g.port = some d → d.data ≠ [] ∧ d.data.length ≤ 5 ∧
      ∀ c ∈ d.data, isDigitCh c = true) ∧
    (∀ ow, g.owner = some ow → ow.data ≠ [] ∧
      ∀ c ∈ ow.data, domainChar c = true) ∧
    (g.repo.data ≠ [] ∧ ∀ c ∈ g.repo.data, repoChar c = true) ∧
    (g.owner = none → junctionP g.repo.data) := by
  obtain ⟨dom, s4, hs3, hdomne, hdall, h4⟩ := plusG_some h
  rcases portOpt_some h4 with ⟨d, s5, hdne, hdlen, hdigits, h5⟩ | h5
  · obtain ⟨h1, h2, h3, hport, hown, hrepo, hjun⟩ := shape_core2 h5
    refine ⟨h1, h2, ?_, ?_, hown, hrepo, hjun⟩
    · rw [h3]
      exact ⟨hdomne, hdall⟩
    · intro d' hd'
      rw [hport] at hd'
      cases Option.some.inj hd'
      exact ⟨hdne, hdlen, hdigits⟩
  · obtain ⟨h1, h2, h3, hport, hown, hrepo, hjun⟩ := shape_core2 h5
    refine ⟨h1, h2, ?_, ?_, hown, hrepo, hjun⟩
    · rw [h3]
      exact ⟨hdomne, hdall⟩
    · intro d' hd'
      rw [hport] at hd'
      exact Option.noConfusion hd'

/-- Shape of every successful `matchSSHPath` result: each captured group
satisfies the character-class and length constraints of its regex piece,
and when `owner` is absent the `repo` capture satisfies the junction
property (it starts with a slash, contains no slash, or ends in a single
trailing slash). -/
theorem matchSSHPath_shape {s : List Char} {g : SSHGroups}
    (h : matchSSHPath s = some g) :
    (∀ u, g.user = some u → userShapeP u.data) ∧
    (g.domain.data ≠ [] ∧ ∀ c ∈ g.domain.data, domainChar c = true) ∧
    (∀ d, g.port = some d → d.data ≠ [] ∧ d.data.length ≤ 5 ∧
      ∀ c ∈ d.data, isDigitCh c = true) ∧
    (∀ ow, g.owner = some ow → ow.data ≠ [] ∧
      ∀ c ∈ ow.data, domainChar c = true) ∧
    (g.repo.data ≠ [] ∧ ∀ c ∈ g.repo.data, repoChar c = true) ∧
    (g.owner = none → junctionP g.repo.data) := by
  simp only [matchSSHPath] at h
  obtain ⟨w0, s1, _, _, h1⟩ := manyG_some h
  obtain ⟨pro, s2, h2⟩ := protoOpt_some h1
  rcases userOpt_some h2 with ⟨u, s3, hshape, h3⟩ | h3
  · obtain ⟨hp, hu, rest⟩ := shape_core h3
    refine ⟨?_, rest⟩
    intro u' hu'
    rw [hu] at hu'
    cases Option.some.inj hu'
    exact hshape
  · obtain ⟨hp, hu, rest⟩ := shape_core h3
    refine ⟨?_, rest⟩
    intro u' hu'
    rw [hu] at hu'
    exact Option.noConfusion hu'

/-- Decomposition of a successful `sanitizeRepoPathSSH`: there is a
successful match and the location is the record with defaults
substituted. -/
theorem sanitizeRepoPathSSH_some {input : String} {l : SSHLocation}
    (h : sanitizeRepoPathSSH input = some l) :
    ∃ g, matchSSHPath input.data = some g ∧
      l = { user := g.user.getD "git", domain := g.domain,
            port := digitsToNat (g.port.getD "22"),
            owner := g.owner.getD "", repo := g.repo } := by
  simp only [sanitizeRepoPathSSH] at h
  split at h
  · cases h
  · rename_i g hg
    exact ⟨g, hg, (Option.some.inj h).symm⟩

/-- C5 counterexample: the port pattern `[0-9]{1,5}` does not bound the
value by 65535: `example.com:99999/repo` parses successfully with
port 99999, which is outside the claimed range 1 to 65535. -/
theorem sanitizeRepoPathSSH_port_out_of_range_cex :
    sanitizeRepoPathSSH "example.com:99999/repo" =
      some { user := "git", domain := "example.com", port := 99999,
             owner := "", repo := "repo" } ∧ 99999 > 65535 := by
  exact ⟨by decide, by decide⟩

/-- C5 (amended): every successful `sanitizeRepoPathSSH` result has
`port ≤ 99999` (the pattern admits one to five decimal digits, so 0 and
values above 65535 are accepted), and the defaults `user = "git"`,
`port = 22`, `owner = ""` are substituted exactly when the corresponding
capture group is absent from the match. -/
theorem sanitizeRepoPathSSH_port_range_and_defaults {input : String}
    {l : SSHLocation} (h : sanitizeRepoPathSSH input = some l) :
    l.port ≤ 99999 ∧
    ∃ g, matchSSHPath input.data = some g ∧
      l.user = g.user.getD "git" ∧
      l.port = digitsToNat (g.port.getD "22") ∧
      l.owner = g.owner.getD "" ∧
      (g.user = none → l.user = "git") ∧
      (g.port = none → l.port = 22) ∧
      (g.owner = none → l.owner = "") := by
  obtain ⟨g, hg, hl⟩ := sanitizeRepoPathSSH_some h
  subst hl
  obtain ⟨-, -, hport, -, -, -⟩ := matchSSHPath_shape hg
  refine ⟨?_, g, hg, rfl, rfl, rfl,
    fun hu => by show g.user.getD "git" = "git"; rw [hu]; rfl,
    fun hp => by show digitsToNat (g.port.getD "22") = 22; rw [hp]; decide,
    fun ho => by show g.owner.getD "" = ""; rw [ho]; rfl⟩
  show digitsToNat (g.port.getD "22") ≤ 99999
  rcases hd : g.port with _ | d
  · decide
  · obtain ⟨hdne, hdlen, hdig⟩ := hport d hd
    have hle := digitsToNat_le hdig hdlen
    rw [String_mk_data] at hle
    exact hle

/-- C5 witness: instantiation at `host.com:repo`, whose match has no
user, port or owner group, so all three defaults appear. -/
theorem sanitizeRepoPathSSH_port_range_and_defaults_witness :
    sanitizeRepoPathSSH "host.com:repo" =
      some { user := "git", domain := "host.com", port := 22,
             owner := "", repo := "repo" } ∧
    ((SSHLocation.mk "git" "host.com" 22 "" "repo").port ≤ 99999 ∧
     ∃ g, matchSSHPath ("host.com:repo" : String).data = some g ∧
       (SSHLocation.mk "git" "host.com" 22 "" "repo").user =
         g.user.getD "git" ∧
       (SSHLocation.mk "git" "host.com" 22 "" "repo").port =
         digitsToNat (g.port.getD "22") ∧
       (SSHLocation.mk "git" "host.com" 22 "" "repo").owner =
         g.owner.getD "" ∧
       (g.user = none →
         (SSHLocation.mk "git" "host.com" 22 "" "repo").user = "git") ∧
       (g.port = none →
         (SSHLocation.mk "git" "host.com" 22 "" "repo").port = 22) ∧
       (g.owner = none →
         (SSHLocation.mk "git" "host.com" 22 "" "repo").owner = "")) :=
  ⟨by decide, sanitizeRepoPathSSH_port_range_and_defaults (by decide)⟩

end Dokploy
